import Mathlib

/-!
Verification of the request-pipeline core of the MCP gateway repository:
the bounded TTL/LRU cache (`AdvancedCache`), the fixed-window rate limiter
and retrying transport (`HttpClient.request` / `checkRateLimit`), the error
shaping (`handleApiError`), and the metrics collector (`MetricsCollector`).

The JavaScript source is shallowly embedded: JS objects become structures,
JS `Map`s become association lists with unique keys (insertion order
preserved, as `Map` guarantees), timestamps (`Date.now()`) become explicit
`Int` parameters, and exceptions become `Option`/sum-shaped results.
JS truthiness tests from the source (`if (cachedResponse)`, `ttl ||
this.defaultTTL`, `if (oldestKey)`) are embedded faithfully.
-/

/-- A JSON value, as produced by `response.json()` and stored in the cache. -/
inductive Value where
  | vNull
  | vBool (b : Bool)
  | vNum (n : Int)
  | vStr (s : String)
  | vArr (elems : List Value)
  | vObj (fields : List (String × Value))

/-- JS truthiness of a JSON value: `null`, `false`, `0` and the empty string
are falsy; every array and object is truthy. -/
def Value.truthy : Value → Bool
  | .vNull => false
  | .vBool b => b
  | .vNum n => n != 0
  | .vStr s => s != ""
  | .vArr _ => true
  | .vObj _ => true

/-- A JS `Error` object as thrown by the source: the built-in `name` and
`message` plus the extra fields the repository's error classes
(`ApiError`, `ValidationError`, `RateLimitError` in the errors module) attach.
A plain `new Error(msg)` has `name = "Error"` and none of the extras. -/
structure JsError where
  name : String
  message : String
  retryAfter : Option Int := none
  field : Option String := none
  code : Option String := none
  statusCode : Option Int := none
  apiName : Option String := none
deriving Repr, DecidableEq

/-- `new Error(message)`. -/
def mkError (message : String) : JsError :=
  { name := "Error", message := message }

/-- `new RateLimitError(message, retryAfter)` from the errors module. -/
def mkRateLimitError (message : String) (retryAfter : Int) : JsError :=
  { name := "RateLimitError", message := message, retryAfter := some retryAfter }

/-- `new ValidationError(message, field)` from the errors module. -/
def mkValidationError (message : String) (fieldName : String) : JsError :=
  { name := "ValidationError", message := message, field := some fieldName }

/-- Is `pat` a prefix of `l`? (helper for JS `String.prototype.includes`). -/
def charsPrefix : List Char → List Char → Bool
  | [], _ => true
  | _ :: _, [] => false
  | a :: as, b :: bs => a == b && charsPrefix as bs

/-- Does `l` contain `pat` as a contiguous sublist? -/
def charsContain (pat : List Char) : List Char → Bool
  | [] => pat.isEmpty
  | c :: rest => charsPrefix pat (c :: rest) || charsContain pat rest

/-- JS `s.includes(pat)`. -/
def strIncludes (s pat : String) : Bool :=
  charsContain pat.toList s.toList

/-- JS `Math.ceil(a / b)` for integers, `b > 0` (used for the rate-limit
wait-time message). -/
def mathCeilDiv (a b : Int) : Int :=
  -(Int.ediv (-a) b)

/-- The record `handleApiError` returns (`error`, `message`, `apiName` always;
`retryAfter` and `field` only on the corresponding branches). -/
structure HandledError where
  error : String
  message : String
  retryAfter : Option Int := none
  field : Option String := none
  apiName : String
deriving Repr, DecidableEq

/-- `handleApiError(error, apiName)` from the errors module: dispatches on
`error.name`, then on substrings of `error.message`, else a generic record. -/
def handleApiError (error : JsError) (apiName : String) : HandledError :=
  if error.name = "RateLimitError" then
    { error := "Rate limit exceeded", message := error.message,
      retryAfter := error.retryAfter, apiName := apiName }
  else if error.name = "ValidationError" then
    { error := "Validation failed", message := error.message,
      field := error.field, apiName := apiName }
  else if strIncludes error.message "HTTP 401" then
    { error := "Authentication failed",
      message := "Invalid or missing API credentials", apiName := apiName }
  else if strIncludes error.message "HTTP 403" then
    { error := "Access forbidden",
      message := "Insufficient permissions for this API endpoint", apiName := apiName }
  else if strIncludes error.message "HTTP 404" then
    { error := "Resource not found",
      message := "The requested resource does not exist", apiName := apiName }
  else if strIncludes error.message "timeout" then
    { error := "Request timeout",
      message := "The API request timed out", apiName := apiName }
  else
    { error := "API request failed", message := error.message, apiName := apiName }

/-! ## JS `Map` as an association list (insertion order, unique keys) -/

/-- `Map.prototype.get` (as an `Option`). -/
def mapGet (m : List (String × α)) (k : String) : Option α :=
  match m with
  | [] => none
  | kv :: rest => if kv.1 = k then some kv.2 else mapGet rest k

/-- `Map.prototype.has`. -/
def hasKey (m : List (String × α)) (k : String) : Bool :=
  match m with
  | [] => false
  | kv :: rest => kv.1 == k || hasKey rest k

/-- `Map.prototype.set`: update in place if the key is present (JS `Map`
keeps the original insertion position), else append. -/
def mapSet (m : List (String × α)) (k : String) (v : α) : List (String × α) :=
  if hasKey m k then m.map (fun kv => if kv.1 = k then (k, v) else kv)
  else m ++ [(k, v)]

/-- `Map.prototype.delete` (dropping the binding; JS `Map` keys are unique). -/
def mapDelete (m : List (String × α)) (k : String) : List (String × α) :=
  m.filter (fun kv => !(kv.1 == k))

/-- The keys of a map, in insertion order. -/
def keysOf (m : List (String × α)) : List String :=
  m.map Prod.fst

/-! ## AdvancedCache (middleware/cache module) -/

/-- A cache entry: `{ data, expiresAt, createdAt }` as stored by
`AdvancedCache.set`. -/
structure CacheEntry where
  data : Value
  expiresAt : Int
  createdAt : Int

/-- The `AdvancedCache` object: the two `Map`s plus the metrics counters. -/
structure AdvancedCache where
  maxSize : Int
  defaultTTL : Int
  cache : List (String × CacheEntry)
  accessTimes : List (String × Int)
  hits : Nat
  misses : Nat
  sets : Nat
  evictions : Nat
  totalRequests : Nat

/-- The constructor `new AdvancedCache(options)`:
`maxSize = options.maxSize || 100`, `defaultTTL = options.defaultTTL || 300000`
(JS `||`: an absent or zero option falls back to the default). -/
def mkCache (maxSizeOpt defaultTTLOpt : Option Int) : AdvancedCache :=
  { maxSize := match maxSizeOpt with
      | some m => if m = 0 then 100 else m
      | none => 100
    defaultTTL := match defaultTTLOpt with
      | some t => if t = 0 then 300000 else t
      | none => 300000
    cache := []
    accessTimes := []
    hits := 0, misses := 0, sets := 0, evictions := 0, totalRequests := 0 }

/-- `generateKey(apiName, endpoint, params)`: sort the parameter names,
join as `name=value` pairs with `&`, and concatenate with `:` delimiters.
A parameter map is embedded as an association list; JS stringifies a missing
property as `"undefined"` (unreachable when the keys come from the map itself). -/
def generateKey (apiName endpoint : String) (params : List (String × String)) : String :=
  let sortedParams :=
    (((params.map Prod.fst).insertionSort (fun a b => a ≤ b)).map
      (fun k => k ++ "=" ++ ((params.lookup k).getD "undefined")))
  apiName ++ ":" ++ endpoint ++ ":" ++ String.intercalate "&" sortedParams

/-- `get(key)`: count the request; a missing or expired entry is a miss (an
expired entry is removed from both maps); otherwise refresh the access time,
count a hit and return the stored data. `now` stands for `Date.now()`. -/
def AdvancedCache.get (c : AdvancedCache) (now : Int) (key : String) :
    Option Value × AdvancedCache :=
  let c := { c with totalRequests := c.totalRequests + 1 }
  match mapGet c.cache key with
  | none => (none, { c with misses := c.misses + 1 })
  | some item =>
    if now > item.expiresAt then
      (none, { c with cache := mapDelete c.cache key,
                      accessTimes := mapDelete c.accessTimes key,
                      misses := c.misses + 1 })
    else
      (some item.data, { c with accessTimes := mapSet c.accessTimes key now,
                                hits := c.hits + 1 })

/-- `evictLRU()`: scan `accessTimes` for the smallest timestamp (first wins a
tie, exactly as the JS loop with `time < oldestTime`); then
`if (oldestKey) ...` — since the empty string is falsy in JS, an LRU key `""`
(like an empty map) skips the deletion and the `evictions` increment. -/
def AdvancedCache.evictLRU (c : AdvancedCache) : AdvancedCache :=
  let oldest := c.accessTimes.foldl
    (fun acc kv =>
      match acc with
      | none => some kv
      | some best => if kv.2 < best.2 then some kv else acc)
    none
  match oldest with
  | none => c
  | some best =>
    if best.1 = "" then c
    else { c with cache := mapDelete c.cache best.1,
                  accessTimes := mapDelete c.accessTimes best.1,
                  evictions := c.evictions + 1 }

/-- `set(key, data, ttl = null)`: `actualTTL = ttl || defaultTTL` (JS `||`:
`null` and `0` both fall back), `expiresAt = now + actualTTL`; evict the LRU
entry first when the store is at capacity and the key is new; store the entry,
refresh the access time and count the set. -/
def AdvancedCache.set (c : AdvancedCache) (now : Int) (key : String) (data : Value)
    (ttl : Option Int) : AdvancedCache :=
  let actualTTL := match ttl with
    | some t => if t = 0 then c.defaultTTL else t
    | none => c.defaultTTL
  let expiresAt := now + actualTTL
  let c := if (c.cache.length : Int) ≥ c.maxSize ∧ ¬ hasKey c.cache key = true
    then c.evictLRU else c
  { c with cache := mapSet c.cache key ⟨data, expiresAt, now⟩,
           accessTimes := mapSet c.accessTimes key now,
           sets := c.sets + 1 }

/-- `cleanup()`: remove every entry whose `expiresAt` has passed (from both
maps) and return the count removed. -/
def AdvancedCache.cleanup (c : AdvancedCache) (now : Int) : Nat × AdvancedCache :=
  c.cache.foldl
    (fun acc kv =>
      if now > kv.2.expiresAt then
        (acc.1 + 1, { acc.2 with cache := mapDelete acc.2.cache kv.1,
                                 accessTimes := mapDelete acc.2.accessTimes kv.1 })
      else acc)
    (0, c)

/-- `clear()`: drop both maps and reset every counter. -/
def AdvancedCache.clear (c : AdvancedCache) : AdvancedCache :=
  { c with cache := [], accessTimes := [],
           hits := 0, misses := 0, sets := 0, evictions := 0, totalRequests := 0 }

/-- `delete(key)`: remove the key from both maps, reporting whether it was
present in the entry map. -/
def AdvancedCache.delete (c : AdvancedCache) (key : String) : Bool × AdvancedCache :=
  (hasKey c.cache key,
   { c with cache := mapDelete c.cache key, accessTimes := mapDelete c.accessTimes key })

/-- `has(key)`: like `get` but without touching the counters or access order,
beyond removing an expired entry. -/
def AdvancedCache.has (c : AdvancedCache) (now : Int) (key : String) :
    Bool × AdvancedCache :=
  match mapGet c.cache key with
  | none => (false, c)
  | some item =>
    if now > item.expiresAt then
      (false, { c with cache := mapDelete c.cache key,
                       accessTimes := mapDelete c.accessTimes key })
    else (true, c)

/-! ## HttpClient (utils/httpClient module) -/

/-- The mutable state of one `HttpClient` instance, together with its
per-target configuration (`config.apis[apiName]`): retry count and the
rate-limit window and quota. `requestCount`/`resetTime` are the fixed-window
rate-limiter state (`resetTime` starts at `Date.now() + window`). -/
structure HttpClientState where
  apiName : String
  retries : Nat
  rlRequests : Int
  rlWindow : Int
  requestCount : Int
  resetTime : Int
  cache : AdvancedCache

/-- The message of the error thrown by `checkRateLimit`. -/
def rateLimitMessage (apiName : String) (waitTime : Int) : String :=
  "Rate limit exceeded for " ++ apiName ++ ". Try again in " ++
    toString (mathCeilDiv waitTime 1000) ++ " seconds"

/-- `checkRateLimit()`: reset the counter when the window has passed
(`now > resetTime`), then throw a plain `Error` when
`requestCount >= rateLimit.requests`. The state mutations performed before a
throw persist, so the updated state is returned alongside the optional error.
Note the source throws `new Error(...)`, not a `RateLimitError`. -/
def checkRateLimit (now : Int) (st : HttpClientState) :
    HttpClientState × Option JsError :=
  let st := if now > st.resetTime then
      { st with requestCount := 0, resetTime := now + st.rlWindow }
    else st
  if st.requestCount ≥ st.rlRequests then
    (st, some (mkError (rateLimitMessage st.apiName (st.resetTime - now))))
  else (st, none)

/-- `getCacheTTL(endpoint)`: endpoint-pattern TTL selection, in source order. -/
def getCacheTTL (defaultTTL : Int) (endpoint : String) : Int :=
  if strIncludes endpoint "/users/" && !(strIncludes endpoint "/repos") then 600000
  else if strIncludes endpoint "/repos/" && !(strIncludes endpoint "/issues") then 300000
  else if strIncludes endpoint "/search/" then 180000
  else if strIncludes endpoint "/issues" then 60000
  else defaultTTL

/-- Outcome of one `fetch` attempt: a parsed JSON body, or a failure (network
error, timeout, or the `HTTP status: text` error thrown on a non-ok response). -/
inductive FetchOutcome where
  | ok (v : Value)
  | err (e : JsError)

/-- The outcome of `request`: the returned JSON value, or the propagated
exception. `failure none` is the degenerate `throw lastError` with
`lastError` still `undefined` (only reachable when `retries = 0`). -/
inductive ReqOutcome where
  | success (v : Value)
  | failure (e : Option JsError)

/-- What the retry loop of `request` produced: outcome, number of attempts
performed, the backoff delays slept (in order, in milliseconds), and the
cache and rate-counter state after the loop. -/
structure LoopOut where
  outcome : ReqOutcome
  attempts : Nat
  delays : List Int
  cache : AdvancedCache
  requestCount : Int

/-- The retry loop of `request` (`for (let attempt = 0; attempt < retries;
attempt++)`), embedded with `remaining = retries - attempt` as the structural
fuel. Each iteration increments `requestCount`, invokes `fetch`; on success a
GET response is stored in the cache and returned; on failure the error is
retained and, when `attempt < retries - 1`, a backoff of `2^attempt * 1000` ms
is slept. Falling off the loop yields `throw lastError`. -/
def attemptLoop (fetch : Nat → FetchOutcome) (isRead : Bool) (key : String)
    (ttl : Int) (now : Int) (retries : Nat) :
    Nat → Nat → Option JsError → AdvancedCache → Int → LoopOut
  | 0, _, lastError, c, n => ⟨.failure lastError, 0, [], c, n⟩
  | rem + 1, attempt, _, c, n =>
    let n' := n + 1
    match fetch attempt with
    | .ok v =>
      let c' := if isRead then c.set now key v (some ttl) else c
      ⟨.success v, 1, [], c', n'⟩
    | .err e =>
      let ds : List Int := if attempt + 1 < retries then [(2 : Int) ^ attempt * 1000] else []
      let r := attemptLoop fetch isRead key ttl now retries rem (attempt + 1) (some e) c n'
      ⟨r.outcome, r.attempts + 1, ds ++ r.delays, r.cache, r.requestCount⟩

/-- The retry loop entered at attempt 0 with `lastError` undefined. -/
def runTransport (fetch : Nat → FetchOutcome) (isRead : Bool) (key : String)
    (ttl : Int) (now : Int) (retries : Nat) (c : AdvancedCache) (n : Int) : LoopOut :=
  attemptLoop fetch isRead key ttl now retries retries 0 none c n

/-- Observable events of one `request` call: whether the cache was consulted,
whether a cache hit was returned, how many times `checkRateLimit` ran, how
many transport attempts were made, and the backoff delays slept. -/
structure ReqTrace where
  cacheLookup : Bool
  cacheHitReturned : Bool
  rlChecks : Nat
  attempts : Nat
  delays : List Int
deriving Repr, DecidableEq

/-- JS `!options.method || options.method === 'GET'`: the method is absent,
empty (falsy), or exactly `'GET'`. -/
def isReadMethod : Option String → Bool
  | none => true
  | some m => m == "" || m == "GET"

/-- JS `options.method || 'GET'` (the value placed in the cache-key params). -/
def jsMethodStr : Option String → String
  | none => "GET"
  | some m => if m = "" then "GET" else m

/-- Build a JS object literal from fields in order (later fields overwrite). -/
def objOf (l : List (String × String)) : List (String × String) :=
  l.foldl (fun m kv => mapSet m kv.1 kv.2) []

/-- The cache key `request` computes:
`generateKey(apiName, endpoint, { method: options.method || 'GET', ...params })`. -/
def reqKey (apiName endpoint : String) (method : Option String)
    (params : List (String × String)) : String :=
  generateKey apiName endpoint (objOf (("method", jsMethodStr method) :: params))

/-- The part of `request` after the cache check: `checkRateLimit` (whose throw
propagates), then the retry loop. -/
def afterCache (fetch : Nat → FetchOutcome) (now : Int) (st : HttpClientState)
    (key endpoint : String) (isRead : Bool) :
    ReqOutcome × HttpClientState × ReqTrace :=
  match checkRateLimit now st with
  | (st2, some e) => (.failure (some e), st2, ⟨isRead, false, 1, 0, []⟩)
  | (st2, none) =>
    let r := runTransport fetch isRead key (getCacheTTL st2.cache.defaultTTL endpoint)
      now st2.retries st2.cache st2.requestCount
    (r.outcome, { st2 with cache := r.cache, requestCount := r.requestCount },
     ⟨isRead, false, 1, r.attempts, r.delays⟩)

/-- `HttpClient.request(endpoint, options)`: compute the cache key; for a read
(method absent/falsy or `'GET'`) consult the cache and — because the source
tests `if (cachedResponse)` — return the cached value only when it is truthy;
otherwise check the rate limit and run the retry loop. `fetch` is the oracle
for the network; `now` stands for `Date.now()` during this logical call. -/
def request (fetch : Nat → FetchOutcome) (now : Int) (st : HttpClientState)
    (endpoint : String) (method : Option String) (params : List (String × String)) :
    ReqOutcome × HttpClientState × ReqTrace :=
  let key := reqKey st.apiName endpoint method params
  if isReadMethod method then
    match st.cache.get now key with
    | (some v, c') =>
      if v.truthy then (.success v, { st with cache := c' }, ⟨true, true, 0, 0, []⟩)
      else afterCache fetch now { st with cache := c' } key endpoint true
    | (none, c') => afterCache fetch now { st with cache := c' } key endpoint true
  else
    afterCache fetch now st key endpoint false

/-! ## MetricsCollector (middleware/metrics module) -/

/-- One `{ total, successful, failed }` bucket (per API or per tool). -/
structure ReqBucket where
  total : Nat
  successful : Nat
  failed : Nat
deriving Repr, DecidableEq

/-- The `MetricsCollector` state. `minResponseTime` starts as JS `Infinity`,
modelled as `none`; `avgResponseTime` is a float in the source, modelled as an
exact rational. The cache sub-object (filled by `updateCacheMetrics`) is not
touched by the claims and is omitted. -/
structure MetricsState where
  total : Nat
  successful : Nat
  failed : Nat
  byApi : List (String × ReqBucket)
  byTool : List (String × ReqBucket)
  totalResponseTime : Int
  avgResponseTime : ℚ
  minResponseTime : Option Int
  maxResponseTime : Int
  history : List (Int × Int)
  errorsTotal : Nat
  errorsByType : List (String × Nat)
  errorsByApi : List (String × Nat)
  startTime : Int

/-- A fresh `MetricsCollector` (also what `reset()` recreates). -/
def freshMetrics (now : Int) : MetricsState :=
  { total := 0, successful := 0, failed := 0, byApi := [], byTool := []
    totalResponseTime := 0, avgResponseTime := 0, minResponseTime := none
    maxResponseTime := 0, history := []
    errorsTotal := 0, errorsByType := [], errorsByApi := []
    startTime := now }

/-- The context value `startRequest(apiName, toolName)` returns. The random
`requestId` is passed in (its generation uses `Math.random`, which no claim
depends on). -/
structure RequestContext where
  apiName : String
  toolName : String
  startTime : Int
  requestId : String

/-- `startRequest`: a pure value object, no shared-state mutation. -/
def startRequest (apiName toolName : String) (now : Int) (requestId : String) :
    RequestContext :=
  ⟨apiName, toolName, now, requestId⟩

/-- Bump a per-API or per-tool bucket, creating it at `{0,0,0}` if absent. -/
def bumpBucket (l : List (String × ReqBucket)) (k : String) (succ : Bool) :
    List (String × ReqBucket) :=
  let cur := (mapGet l k).getD ⟨0, 0, 0⟩
  mapSet l k { cur with total := cur.total + 1,
                        successful := if succ then cur.successful + 1 else cur.successful,
                        failed := if succ then cur.failed else cur.failed + 1 }

/-- `recordPerformance(duration)`: fold the latency into sum/avg/min/max and
push it onto the bounded history (oldest dropped past 100 samples). The
average divides by the already-incremented `requests.total`. -/
def recordPerformance (duration now : Int) (m : MetricsState) : MetricsState :=
  let m := { m with totalResponseTime := m.totalResponseTime + duration }
  let m := { m with avgResponseTime := (m.totalResponseTime : ℚ) / (m.total : ℚ) }
  let m := if (match m.minResponseTime with
               | none => true
               | some mn => duration < mn) then
      { m with minResponseTime := some duration }
    else m
  let m := if duration > m.maxResponseTime then { m with maxResponseTime := duration }
    else m
  let m := { m with history := m.history ++ [(duration, now)] }
  if m.history.length > 100 then { m with history := m.history.tail } else m

/-- `recordError(errorType, apiName)`. -/
def recordError (errorType apiName : String) (m : MetricsState) : MetricsState :=
  { m with errorsTotal := m.errorsTotal + 1,
           errorsByType := mapSet m.errorsByType errorType
             ((mapGet m.errorsByType errorType).getD 0 + 1),
           errorsByApi := mapSet m.errorsByApi apiName
             ((mapGet m.errorsByApi apiName).getD 0 + 1) }

/-- `recordSuccess(requestContext)`: bump the overall, per-API and per-tool
counters and fold in the latency `now - startTime`. -/
def recordSuccess (ctx : RequestContext) (now : Int) (m : MetricsState) : MetricsState :=
  let duration := now - ctx.startTime
  let m := { m with total := m.total + 1, successful := m.successful + 1,
                    byApi := bumpBucket m.byApi ctx.apiName true,
                    byTool := bumpBucket m.byTool ctx.toolName true }
  recordPerformance duration now m

/-- `recordFailure(requestContext, error)`: the failed-branch bookkeeping plus
`recordError(error.name || 'UnknownError', apiName)`. (Unlike `recordSuccess`
it does not call `recordPerformance`; its `duration` feeds only a log line.) -/
def recordFailure (ctx : RequestContext) (error : JsError) (_now : Int)
    (m : MetricsState) : MetricsState :=
  let m := { m with total := m.total + 1, failed := m.failed + 1,
                    byApi := bumpBucket m.byApi ctx.apiName false,
                    byTool := bumpBucket m.byTool ctx.toolName false }
  recordError (if error.name = "" then "UnknownError" else error.name) ctx.apiName m

/-- The report `getReport()` assembles. Percentages and `toFixed` string
formatting are modelled as exact rationals; `minResponseTime = none` renders
as the source's `'N/A'`. -/
structure MetricsReport where
  uptimeMs : Int
  totalRequests : Nat
  successRatePct : ℚ
  avgResponseTime : ℚ
  minResponseTime : Option Int
  maxResponseTime : Int
  errorsTotal : Nat

/-- `getReport()`: derive the summary from the raw counters (reading only —
the source builds a fresh object and assigns nothing to `this.metrics`). -/
def getReport (now : Int) (m : MetricsState) : MetricsReport :=
  { uptimeMs := now - m.startTime
    totalRequests := m.total
    successRatePct := if m.total > 0 then (m.successful : ℚ) / (m.total : ℚ) * 100 else 0
    avgResponseTime := m.avgResponseTime
    minResponseTime := m.minResponseTime
    maxResponseTime := m.maxResponseTime
    errorsTotal := m.errorsTotal }

/-- A completed logical call as the metrics layer sees it: identifiers, start
and completion timestamps, and for failures the error recorded. -/
inductive MEvent where
  | succ (apiName toolName requestId : String) (startT finishT : Int)
  | fail (apiName toolName requestId : String) (startT finishT : Int) (e : JsError)

/-- Feed one completed call into the collector. -/
def applyEvent (m : MetricsState) : MEvent → MetricsState
  | .succ api tool rid s f => recordSuccess (startRequest api tool s rid) f m
  | .fail api tool rid s f e => recordFailure (startRequest api tool s rid) e f m

/-- Feed a sequence of completed calls into the collector. -/
def applyEvents (m : MetricsState) (evs : List MEvent) : MetricsState :=
  evs.foldl applyEvent m

/-- Is the event a success? -/
def MEvent.isSucc : MEvent → Bool
  | .succ .. => true
  | .fail .. => false

/-! ## Auxiliary definitions for the statements -/

/-- Boolean inclusion of key lists (decidable form of `⊆`). -/
def keysSubB (l1 l2 : List String) : Bool :=
  l1.all (fun a => decide (a ∈ l2))

/-- Well-formedness of the entry map / access-time map pair: both are genuine
JS `Map`s (no duplicate keys) and they track exactly the same set of keys. -/
def KeysWF (cc : List (String × CacheEntry)) (att : List (String × Int)) : Prop :=
  (keysOf cc).Nodup ∧ (keysOf att).Nodup ∧
  keysSubB (keysOf cc) (keysOf att) = true ∧
  keysSubB (keysOf att) (keysOf cc) = true

/-- Representation invariant of `AdvancedCache`: both association lists are
genuine JS `Map`s (no duplicate keys) and they track exactly the same keys. -/
def CacheWF (c : AdvancedCache) : Prop :=
  KeysWF c.cache c.accessTimes

/-- Insert a list of keys in order, one `set` per key at increasing times
(default TTL, a fixed dummy value). -/
def insertSeq : AdvancedCache → List String → Int → AdvancedCache
  | c, [], _ => c
  | c, k :: ks, t => insertSeq (c.set t k (.vStr "v") none) ks (t + 1)

/-- The rate counter right after `checkRateLimit`'s window-reset step. -/
def rlResetCount (now : Int) (st : HttpClientState) : Int :=
  if now > st.resetTime then 0 else st.requestCount

/-! ## Lemmas about the `Map` model -/

theorem hasKey_iff (m : List (String × α)) (k : String) :
    hasKey m k = true ↔ k ∈ keysOf m := by
  induction m with
  | nil => simp [hasKey, keysOf]
  | cons kv rest ih =>
    simp [hasKey, keysOf, ih, List.mem_map]
    constructor
    · rintro (h | h)
      · exact Or.inl h.symm
      · exact Or.inr (by simpa [keysOf] using h)
    · rintro (h | h)
      · exact Or.inl h.symm
      · exact Or.inr (by simpa [keysOf] using h)

theorem keysOf_cons (kv : String × α) (rest : List (String × α)) :
    keysOf (kv :: rest) = kv.1 :: keysOf rest := rfl

theorem mapGet_eq_none_iff (m : List (String × α)) (k : String) :
    mapGet m k = none ↔ k ∉ keysOf m := by
  induction m with
  | nil => simp [mapGet, keysOf]
  | cons kv rest ih =>
    rw [keysOf_cons]
    by_cases h : kv.1 = k
    · simp [mapGet, h]
    · simp only [mapGet, if_neg h, ih, List.mem_cons]
      constructor
      · intro h1 h2
        rcases h2 with h2 | h2
        · exact h h2.symm
        · exact h1 h2
      · intro h1 h2
        exact h1 (Or.inr h2)

theorem mapGet_isSome_iff (m : List (String × α)) (k : String) :
    (mapGet m k).isSome = true ↔ k ∈ keysOf m := by
  rw [Option.isSome_iff_ne_none]
  constructor
  · intro h
    by_contra hk
    exact h ((mapGet_eq_none_iff m k).mpr hk)
  · intro h hn
    exact (mapGet_eq_none_iff m k).mp hn h

theorem keysOf_mapSet_mem (m : List (String × α)) (k : String) (v : α)
    (h : k ∈ keysOf m) : keysOf (mapSet m k v) = keysOf m := by
  rw [mapSet, if_pos ((hasKey_iff m k).mpr h)]
  show List.map Prod.fst (List.map _ m) = List.map Prod.fst m
  rw [List.map_map]
  apply List.map_congr_left
  intro kv _
  by_cases hk : kv.1 = k <;> simp [hk]

theorem keysOf_mapSet_not_mem (m : List (String × α)) (k : String) (v : α)
    (h : k ∉ keysOf m) : keysOf (mapSet m k v) = keysOf m ++ [k] := by
  rw [mapSet, if_neg (fun hc => h ((hasKey_iff m k).mp hc))]
  simp [keysOf]

theorem keysOf_mapDelete (m : List (String × α)) (k : String) :
    keysOf (mapDelete m k) = (keysOf m).filter (fun a => !(a == k)) := by
  induction m with
  | nil => rfl
  | cons kv rest ih =>
    by_cases h : kv.1 = k
    · simp [mapDelete, keysOf, h] at ih ⊢
      simpa [mapDelete, keysOf] using ih
    · simp [mapDelete, keysOf, h] at ih ⊢
      simpa [mapDelete, keysOf] using ih

theorem mem_keysOf_mapDelete (m : List (String × α)) (k a : String) :
    a ∈ keysOf (mapDelete m k) ↔ a ∈ keysOf m ∧ a ≠ k := by
  rw [keysOf_mapDelete]
  simp [List.mem_filter]

theorem mapGet_update_self (m : List (String × α)) (k : String) (v : α) :
    k ∈ keysOf m →
      mapGet (m.map fun kv => if kv.1 = k then (k, v) else kv) k = some v := by
  induction m with
  | nil => intro h; cases h
  | cons kv rest ih =>
    intro h
    by_cases hk : kv.1 = k
    · simp [mapGet, hk]
    · rw [keysOf_cons, List.mem_cons] at h
      rcases h with h | h
      · exact absurd h.symm hk
      · simpa [mapGet, hk] using ih h

theorem mapGet_append_self (m : List (String × α)) (k : String) (v : α) :
    k ∉ keysOf m → mapGet (m ++ [(k, v)]) k = some v := by
  induction m with
  | nil => intro h; simp [mapGet]
  | cons kv rest ih =>
    intro h
    rw [keysOf_cons, List.mem_cons] at h
    push_neg at h
    have hk : ¬ kv.1 = k := fun e => h.1 e.symm
    simpa [mapGet, hk] using ih h.2

theorem mapGet_mapSet_self (m : List (String × α)) (k : String) (v : α) :
    mapGet (mapSet m k v) k = some v := by
  by_cases h : k ∈ keysOf m
  · rw [mapSet, if_pos ((hasKey_iff m k).mpr h)]
    exact mapGet_update_self m k v h
  · rw [mapSet, if_neg (fun hc => h ((hasKey_iff m k).mp hc))]
    exact mapGet_append_self m k v h

theorem keysSubB_iff (l1 l2 : List String) :
    keysSubB l1 l2 = true ↔ ∀ a ∈ l1, a ∈ l2 := by
  simp [keysSubB, List.all_eq_true]

/-! ## Lemmas for generateKey (C7) -/

theorem lookup_perm_of_nodup_keys (p1 p2 : List (String × String)) (hp : p1.Perm p2)
    (k : String) :
    (p1.map Prod.fst).Nodup → p1.lookup k = p2.lookup k := by
  induction hp with
  | nil => intro _; rfl
  | cons x p ih =>
    intro nd
    rw [List.map_cons] at nd
    by_cases h1 : k = x.1
    · simp [List.lookup, beq_iff_eq, h1]
    · simp [List.lookup, beq_iff_eq, h1, ih (List.Nodup.of_cons nd)]
  | swap x y l =>
    intro nd
    rw [List.map_cons, List.map_cons] at nd
    have hy : y.1 ∉ x.1 :: List.map Prod.fst l := (List.nodup_cons.mp nd).1
    have hne : y.1 ≠ x.1 := fun e => hy (e ▸ List.mem_cons_self _ _)
    have hyx : (y.1 == x.1) = false := beq_eq_false_iff_ne.mpr hne
    have hxy : (x.1 == y.1) = false := beq_eq_false_iff_ne.mpr (Ne.symm hne)
    by_cases h1 : k = y.1 <;> by_cases h2 : k = x.1
    · exact absurd (h1.symm.trans h2) hne
    · simp [List.lookup, beq_iff_eq, h1, h2, hyx]
    · simp [List.lookup, beq_iff_eq, h1, h2, hxy]
    · simp [List.lookup, beq_eq_false_iff_ne.mpr h1, beq_eq_false_iff_ne.mpr h2]
  | trans p q ih1 ih2 =>
    intro nd
    have nd2 := ((p.map Prod.fst).nodup_iff).mp nd
    exact (ih1 nd).trans (ih2 nd2)

/-- C7: for every api name and endpoint, and any two parameter mappings that
are permutations of the same key/value pairs (a mapping: no duplicate names),
`generateKey` yields the same key. `generateKey` reads nothing but its three
arguments in the source, so the embedding is a pure function and this equation
is the full determinism/permutation-invariance property. -/
theorem generateKey_perm_invariant (api ep : String) (p1 p2 : List (String × String))
    (hp : p1.Perm p2) (nd : (p1.map Prod.fst).Nodup) :
    generateKey api ep p1 = generateKey api ep p2 := by
  unfold generateKey
  have hs : ((p1.map Prod.fst).insertionSort (fun a b => a ≤ b)) =
      ((p2.map Prod.fst).insertionSort (fun a b => a ≤ b)) := by
    exact @List.eq_of_perm_of_sorted String (fun a b => a ≤ b) _ _ _
      ((List.perm_insertionSort _ _).trans
        ((hp.map Prod.fst).trans (List.perm_insertionSort _ _).symm))
      (List.sorted_insertionSort _ _) (List.sorted_insertionSort _ _)
  have hl : (fun k => k ++ "=" ++ ((p1.lookup k).getD "undefined")) =
      (fun k => k ++ "=" ++ ((p2.lookup k).getD "undefined")) := by
    funext k
    rw [lookup_perm_of_nodup_keys p1 p2 hp k nd]
  rw [hs, hl]

/-- Witness for C7 at a concrete pair of permuted parameter maps. -/
theorem generateKey_perm_invariant_witness :
    generateKey "github" "/search/repositories" [("q", "lean"), ("page", "2")] =
      generateKey "github" "/search/repositories" [("page", "2"), ("q", "lean")] :=
  generateKey_perm_invariant "github" "/search/repositories" _ _ (by decide) (by decide)

/-! ## Rate limiter (C3, C4) -/

/-- A client whose target is (degenerately) configured with a zero quota. -/
def rlZeroSt : HttpClientState :=
  { apiName := "x", retries := 3, rlRequests := 0, rlWindow := 100,
    requestCount := 5, resetTime := 10, cache := mkCache none none }

/-- C3 counterexample: with a target whose configured limit is `0`, a call at
`now = 20 > windowResetAt = 10` does reset the window, but the call does NOT
proceed — `checkRateLimit` still throws — refuting the claim's unconditional
"whenever now exceeds windowResetAt ... the call proceeds". -/
theorem checkRateLimit_zero_limit_cex :
    (20 : Int) > rlZeroSt.resetTime ∧
    (checkRateLimit 20 rlZeroSt).1.requestCount = 0 ∧
    (checkRateLimit 20 rlZeroSt).1.resetTime = 20 + rlZeroSt.rlWindow ∧
    (checkRateLimit 20 rlZeroSt).2.isSome = true := by
  refine ⟨by decide, rfl, rfl, rfl⟩

/-- C3 (amended): for a target whose limit is at least 1: whenever
`now > windowResetAt` the counter is reset to zero, `windowResetAt` becomes
`now + window`, and the call proceeds (no error); and within the window, after
exactly `limit` consumptions, the next call fails with the rate-limit error
whose message carries the remaining seconds until the reset. -/
theorem checkRateLimit_window_spec (st : HttpClientState) (now : Int)
    (hlim : 1 ≤ st.rlRequests) :
    (now > st.resetTime →
      checkRateLimit now st =
        ({ st with requestCount := 0, resetTime := now + st.rlWindow }, none)) ∧
    (¬ now > st.resetTime → st.requestCount = st.rlRequests →
      checkRateLimit now st =
        (st, some (mkError (rateLimitMessage st.apiName (st.resetTime - now))))) := by
  constructor
  · intro h
    have h2 : ¬ ((0 : Int) ≥ st.rlRequests) := by omega
    simp [checkRateLimit, h, h2]
  · intro h hc
    have h2 : st.requestCount ≥ st.rlRequests := le_of_eq hc.symm
    simp [checkRateLimit, h, h2]

/-- A client at exactly its limit inside the window (limit 1, one consumed). -/
def rlAtLimitSt : HttpClientState :=
  { apiName := "x", retries := 3, rlRequests := 1, rlWindow := 100,
    requestCount := 1, resetTime := 50, cache := mkCache none none }

/-- Witness for C3: the reset branch at `now = 60` and the throw branch at
`now = 30` (remaining 20 ms, reported as 1 second). -/
theorem checkRateLimit_window_spec_witness :
    checkRateLimit 60 rlAtLimitSt =
      ({ rlAtLimitSt with requestCount := 0, resetTime := 60 + rlAtLimitSt.rlWindow }, none) ∧
    checkRateLimit 30 rlAtLimitSt =
      (rlAtLimitSt, some (mkError (rateLimitMessage "x" (rlAtLimitSt.resetTime - 30)))) :=
  ⟨(checkRateLimit_window_spec rlAtLimitSt 60 (by decide)).1 (by decide),
   (checkRateLimit_window_spec rlAtLimitSt 30 (by decide)).2 (by decide) (by decide)⟩

/-- A github client that has consumed its whole quota inside the window. -/
def rlFullSt : HttpClientState :=
  { apiName := "github", retries := 3, rlRequests := 5, rlWindow := 60000,
    requestCount := 5, resetTime := 10000, cache := mkCache none none }

/-- C4: at a rate-limited call (quota 5 fully consumed, 5000 ms left in the
window) the propagated failure is a plain `Error`: its `name` is not the
structured `RateLimitError` the repository's own error module defines for this
purpose, it carries no `retryAfter` and no target field, and `handleApiError`
— which recognises rate limits only by `name === 'RateLimitError'` and
otherwise matches message substrings — classifies it as the generic
"API request failed" with no retry-after. The claimed structure is absent. -/
theorem rateLimit_error_unstructured :
    (checkRateLimit 5000 rlFullSt).2 = some (mkError (rateLimitMessage "github" 5000)) ∧
    (mkError (rateLimitMessage "github" 5000)).name = "Error" ∧
    (mkError (rateLimitMessage "github" 5000)).name ≠ "RateLimitError" ∧
    (mkError (rateLimitMessage "github" 5000)).retryAfter = none ∧
    (mkError (rateLimitMessage "github" 5000)).apiName = none ∧
    handleApiError (mkError (rateLimitMessage "github" 5000)) "github" =
      { error := "API request failed", message := rateLimitMessage "github" 5000,
        apiName := "github" } := by
  refine ⟨rfl, rfl, by decide, rfl, rfl, by decide⟩

/-! ## Cache TTL handling (C5) -/

/-- The entry stored by `get`-after-`set` is expired: helper exposing `get`'s
expired branch. -/
theorem get_expired (c : AdvancedCache) (now : Int) (k : String) (it : CacheEntry)
    (h1 : mapGet c.cache k = some it) (h2 : now > it.expiresAt) :
    (c.get now k).1 = none ∧ (c.get now k).2.misses = c.misses + 1 := by
  simp [AdvancedCache.get, h1, h2]

/-- C5 counterexample: with `ttl = 0` supplied, the source's `ttl ||
this.defaultTTL` falls back to the default (300000), so the stored expiry is
`now + 300000`, not the claimed `now + ttl = now + 0`. -/
theorem set_ttl_zero_cex :
    (mapGet ((mkCache none none).set 0 "k" (.vStr "v") (some 0)).cache "k").map
        (fun e => e.expiresAt) = some 300000 ∧
    (300000 : Int) ≠ 0 + 0 := by
  exact ⟨rfl, by decide⟩

/-- C5 (amended): `set` stores `expiresAt = now + ttl` whenever the supplied
`ttl` is nonzero; it falls back to `defaultTTL` when `ttl` is absent OR zero
(JS `ttl || this.defaultTTL`). The claim's `set(k, v, -1)` scenario holds: a
subsequent `get` returns absent and increments `misses`. -/
theorem set_ttl_or_default (c : AdvancedCache) (now now2 : Int) (k : String)
    (v : Value) :
    (∀ t : Int, t ≠ 0 →
      (mapGet (c.set now k v (some t)).cache k).map (fun e => e.expiresAt) =
        some (now + t)) ∧
    ((mapGet (c.set now k v none).cache k).map (fun e => e.expiresAt) =
      some (now + c.defaultTTL)) ∧
    ((mapGet (c.set now k v (some 0)).cache k).map (fun e => e.expiresAt) =
      some (now + c.defaultTTL)) ∧
    (now ≤ now2 →
      ((c.set now k v (some (-1))).get now2 k).1 = none ∧
      ((c.set now k v (some (-1))).get now2 k).2.misses =
        (c.set now k v (some (-1))).misses + 1) := by
  refine ⟨?_, ?_, ?_, ?_⟩
  · intro t ht
    simp [AdvancedCache.set, ht, mapGet_mapSet_self]
  · simp [AdvancedCache.set, mapGet_mapSet_self]
  · simp [AdvancedCache.set, mapGet_mapSet_self]
  · intro hle
    have h1 : mapGet (c.set now k v (some (-1))).cache k =
        some ⟨v, now + (-1), now⟩ := by
      simp [AdvancedCache.set, mapGet_mapSet_self]
    exact get_expired _ now2 k _ h1 (show now2 > now + (-1) by omega)

/-- Witness for C5 at concrete inputs. -/
theorem set_ttl_or_default_witness :
    (mapGet ((mkCache none none).set 100 "k" (.vStr "v") (some 7)).cache "k").map
        (fun e => e.expiresAt) = some (100 + 7) ∧
    (((mkCache none none).set 100 "k" (.vStr "v") (some (-1))).get 100 "k").1 = none ∧
    (((mkCache none none).set 100 "k" (.vStr "v") (some (-1))).get 100 "k").2.misses =
      ((mkCache none none).set 100 "k" (.vStr "v") (some (-1))).misses + 1 := by
  refine ⟨(set_ttl_or_default (mkCache none none) 100 100 "k" (.vStr "v")).1 7 (by decide),
    ((set_ttl_or_default (mkCache none none) 100 100 "k" (.vStr "v")).2.2.2 (by decide)).1,
    ((set_ttl_or_default (mkCache none none) 100 100 "k" (.vStr "v")).2.2.2 (by decide)).2⟩

/-! ## Lemmas about the retry loop (C2, C9) -/

theorem attemptLoop_attempts_le (fetch : Nat → FetchOutcome) (isRead : Bool)
    (key : String) (ttl now : Int) (retries : Nat) :
    ∀ rem attempt le c n,
      (attemptLoop fetch isRead key ttl now retries rem attempt le c n).attempts ≤ rem := by
  intro rem
  induction rem with
  | zero => intro attempt le c n; simp [attemptLoop]
  | succ rem ih =>
    intro attempt le c n
    simp only [attemptLoop]
    cases h : fetch attempt with
    | ok v => simp
    | err e =>
      simp only []
      have := ih (attempt + 1) (some e) c (n + 1)
      omega

theorem attemptLoop_count (fetch : Nat → FetchOutcome) (isRead : Bool)
    (key : String) (ttl now : Int) (retries : Nat) :
    ∀ rem attempt le c n,
      (attemptLoop fetch isRead key ttl now retries rem attempt le c n).requestCount
        = n + (attemptLoop fetch isRead key ttl now retries rem attempt le c n).attempts := by
  intro rem
  induction rem with
  | zero => intro attempt le c n; simp [attemptLoop]
  | succ rem ih =>
    intro attempt le c n
    simp only [attemptLoop]
    cases h : fetch attempt with
    | ok v => simp
    | err e =>
      simp only []
      have := ih (attempt + 1) (some e) c (n + 1)
      omega

theorem attemptLoop_attempts_pos (fetch : Nat → FetchOutcome) (isRead : Bool)
    (key : String) (ttl now : Int) (retries : Nat)
    (rem attempt : Nat) (le : Option JsError) (c : AdvancedCache) (n : Int)
    (h : 1 ≤ rem) :
    1 ≤ (attemptLoop fetch isRead key ttl now retries rem attempt le c n).attempts := by
  match rem, h with
  | rem + 1, _ =>
    simp only [attemptLoop]
    cases hf : fetch attempt with
    | ok v => simp
    | err e => simp

theorem attemptLoop_delays (fetch : Nat → FetchOutcome) (isRead : Bool)
    (key : String) (ttl now : Int) (retries : Nat) :
    ∀ rem attempt le c n, rem + attempt = retries →
      (attemptLoop fetch isRead key ttl now retries rem attempt le c n).delays
        = (List.range
            ((attemptLoop fetch isRead key ttl now retries rem attempt le c n).attempts - 1)).map
            (fun i => (2 : Int) ^ (attempt + i) * 1000) := by
  intro rem
  induction rem with
  | zero => intro attempt le c n _; simp [attemptLoop]
  | succ rem ih =>
    intro attempt le c n hinv
    simp only [attemptLoop]
    cases hf : fetch attempt with
    | ok v => simp
    | err e =>
      simp only []
      rcases Nat.eq_zero_or_pos rem with hr | hr
      · subst hr
        have hcond : ¬ (attempt + 1 < retries) := by omega
        simp [attemptLoop, hcond]
      · have hcond : attempt + 1 < retries := by omega
        have hrec := ih (attempt + 1) (some e) c (n + 1) (by omega)
        have hpos := attemptLoop_attempts_pos fetch isRead key ttl now retries
          rem (attempt + 1) (some e) c (n + 1) hr
        set r := attemptLoop fetch isRead key ttl now retries rem (attempt + 1) (some e) c (n + 1)
        simp only [if_pos hcond]
        rw [hrec]
        have ha : r.attempts + 1 - 1 = (r.attempts - 1) + 1 := by omega
        rw [ha, List.range_succ_eq_map]
        simp only [List.map_cons, List.map_map]
        rw [List.singleton_append]
        congr 1
        apply List.map_congr_left
        intro a _
        simp only [Function.comp]
        have hia : attempt + 1 + a = attempt + (a + 1) := by omega
        rw [hia]

theorem attemptLoop_all_fail (fetch : Nat → FetchOutcome) (isRead : Bool)
    (key : String) (ttl now : Int) (retries : Nat) (es : Nat → JsError) :
    ∀ rem attempt le c n,
      (∀ i, i < rem → fetch (attempt + i) = .err (es (attempt + i))) → 1 ≤ rem →
      (attemptLoop fetch isRead key ttl now retries rem attempt le c n).outcome
          = .failure (some (es (attempt + rem - 1))) ∧
      (attemptLoop fetch isRead key ttl now retries rem attempt le c n).attempts = rem ∧
      (attemptLoop fetch isRead key ttl now retries rem attempt le c n).cache = c := by
  intro rem
  induction rem with
  | zero => intro attempt le c n _ h1; exact absurd h1 (by omega)
  | succ rem ih =>
    intro attempt le c n hf _
    have hf0 : fetch attempt = .err (es attempt) := by simpa using hf 0 (by omega)
    simp only [attemptLoop, hf0]
    rcases Nat.eq_zero_or_pos rem with hr | hr
    · subst hr
      simp [attemptLoop]
    · have hf2 : ∀ i, i < rem → fetch (attempt + 1 + i) = .err (es (attempt + 1 + i)) := by
        intro i hi
        have := hf (i + 1) (by omega)
        have harith : attempt + (i + 1) = attempt + 1 + i := by omega
        rwa [harith] at this
      have ihr := ih (attempt + 1) (some (es attempt)) c (n + 1) hf2 hr
      have harith2 : attempt + 1 + rem - 1 = attempt + (rem + 1) - 1 := by omega
      rw [harith2] at ihr
      exact ⟨ihr.1, by omega, ihr.2.2⟩

/-- C2: the transport attempts the request at most `retries` times; the
backoff delays are exactly `2^attemptIndex * 1000` ms for attempt indexes
`0 .. attempts-2` (so none after the final attempt); if every attempt fails
the most recent failure is propagated; and with `retries = 3` and a dependency
failing twice then succeeding, the call succeeds with exactly 3 attempts and
backoffs of 1000 ms and 2000 ms. -/
theorem transport_retry_backoff (fetch : Nat → FetchOutcome) (isRead : Bool)
    (key : String) (ttl now : Int) (retries : Nat) (c : AdvancedCache) (n : Int)
    (es : Nat → JsError) (v : Value) :
    (runTransport fetch isRead key ttl now retries c n).attempts ≤ retries ∧
    (runTransport fetch isRead key ttl now retries c n).delays
      = (List.range ((runTransport fetch isRead key ttl now retries c n).attempts - 1)).map
          (fun i => (2 : Int) ^ i * 1000) ∧
    ((∀ i, i < retries → fetch i = .err (es i)) → 1 ≤ retries →
      (runTransport fetch isRead key ttl now retries c n).outcome
        = .failure (some (es (retries - 1))) ∧
      (runTransport fetch isRead key ttl now retries c n).attempts = retries) ∧
    (retries = 3 → fetch 0 = .err (es 0) → fetch 1 = .err (es 1) → fetch 2 = .ok v →
      (runTransport fetch isRead key ttl now retries c n).outcome = .success v ∧
      (runTransport fetch isRead key ttl now retries c n).attempts = 3 ∧
      (runTransport fetch isRead key ttl now retries c n).delays = [1000, 2000]) := by
  refine ⟨?_, ?_, ?_, ?_⟩
  · exact attemptLoop_attempts_le fetch isRead key ttl now retries retries 0 none c n
  · have h := attemptLoop_delays fetch isRead key ttl now retries retries 0 none c n
      (by omega)
    rw [runTransport, h]
    apply List.map_congr_left
    intro a _
    simp
  · intro hf h1
    have h := attemptLoop_all_fail fetch isRead key ttl now retries es retries 0 none c n
      (by intro i hi; simpa using hf i hi) h1
    rw [runTransport]
    have ha : 0 + retries - 1 = retries - 1 := by omega
    rw [ha] at h
    exact ⟨h.1, h.2.1⟩
  · intro h3 hf0 hf1 hf2
    subst h3
    simp only [runTransport, attemptLoop, hf0, hf1, hf2]
    norm_num

/-- A dependency that fails twice and then succeeds. -/
def fetchFlaky : Nat → FetchOutcome :=
  fun i => if i < 2 then .err (mkError "boom") else .ok (.vStr "done")

/-- A dependency that always fails. -/
def fetchDown : Nat → FetchOutcome :=
  fun _ => .err (mkError "down")

/-- Witness for C2: the flaky dependency under `retries = 3` succeeds after
3 attempts with backoffs 1000 and 2000 ms; the always-failing dependency under
`retries = 2` propagates its last failure after 2 attempts. -/
theorem transport_retry_backoff_witness :
    ((runTransport fetchFlaky true "k" 1000 0 3 (mkCache none none) 0).outcome
        = .success (.vStr "done") ∧
     (runTransport fetchFlaky true "k" 1000 0 3 (mkCache none none) 0).attempts = 3 ∧
     (runTransport fetchFlaky true "k" 1000 0 3 (mkCache none none) 0).delays
        = [1000, 2000]) ∧
    ((runTransport fetchDown true "k" 1000 0 2 (mkCache none none) 0).outcome
        = .failure (some (mkError "down")) ∧
     (runTransport fetchDown true "k" 1000 0 2 (mkCache none none) 0).attempts = 2) :=
  ⟨(transport_retry_backoff fetchFlaky true "k" 1000 0 3 (mkCache none none) 0
      (fun _ => mkError "boom") (.vStr "done")).2.2.2 rfl rfl rfl rfl,
   (transport_retry_backoff fetchDown true "k" 1000 0 2 (mkCache none none) 0
      (fun _ => mkError "down") (.vStr "done")).2.2.1 (fun i _ => rfl) (by omega)⟩

theorem checkRateLimit_fields (now : Int) (st : HttpClientState) :
    (checkRateLimit now st).1.requestCount = rlResetCount now st ∧
    (checkRateLimit now st).1.retries = st.retries ∧
    (checkRateLimit now st).1.cache = st.cache := by
  simp only [checkRateLimit, rlResetCount]
  split_ifs <;> simp

theorem afterCache_counts (fetch : Nat → FetchOutcome) (now : Int)
    (st1 : HttpClientState) (key endpoint : String) (isRead : Bool) :
    (afterCache fetch now st1 key endpoint isRead).2.2.rlChecks = 1 ∧
    (afterCache fetch now st1 key endpoint isRead).2.1.requestCount
      = rlResetCount now st1
        + ((afterCache fetch now st1 key endpoint isRead).2.2.attempts : Int) := by
  have hf := checkRateLimit_fields now st1
  rcases h : checkRateLimit now st1 with ⟨st2, e2⟩
  rw [h] at hf
  cases e2 with
  | some e =>
    simp only [afterCache, h]
    exact ⟨by trivial, by simpa using hf.1⟩
  | none =>
    simp only [afterCache, h, runTransport]
    refine ⟨by trivial, ?_⟩
    have hc := attemptLoop_count fetch isRead key
      (getCacheTTL st2.cache.defaultTTL endpoint) now st2.retries st2.retries 0 none
      st2.cache st2.requestCount
    rw [hc, hf.1]

/-- C9: one logical call that reaches the transport checks the rate limit
exactly once (before the first attempt), yet its final window counter equals
the post-reset counter plus the number of transport attempts performed — every
attempt, retries included, consumes one unit of the window quota. -/
theorem request_consumes_per_attempt (fetch : Nat → FetchOutcome) (now : Int)
    (st : HttpClientState) (endpoint : String) (method : Option String)
    (params : List (String × String)) :
    (request fetch now st endpoint method params).2.2.cacheHitReturned = false →
    (request fetch now st endpoint method params).2.2.rlChecks = 1 ∧
    (request fetch now st endpoint method params).2.1.requestCount
      = rlResetCount now st
        + ((request fetch now st endpoint method params).2.2.attempts : Int) := by
  simp only [request]
  split
  · split
    next v c' heq =>
      split
      next htr =>
        intro hmiss
        simp at hmiss
      next htr =>
        intro _
        exact afterCache_counts fetch now _ _ endpoint true
    next c' heq =>
      intro _
      exact afterCache_counts fetch now _ _ endpoint true
  · intro _
    exact afterCache_counts fetch now _ _ endpoint false

/-- A fresh client for the C9 witness. -/
def st9 : HttpClientState :=
  { apiName := "x", retries := 3, rlRequests := 5, rlWindow := 60000,
    requestCount := 0, resetTime := 100, cache := mkCache none none }

/-- Witness for C9: a POST call (no cache consultation) performs one attempt
and the counter rises from 0 to 1, with exactly one rate-limit check. -/
theorem request_consumes_per_attempt_witness :
    (request (fun _ => .ok (.vStr "r")) 10 st9 "/e" (some "POST") []).2.2.rlChecks = 1 ∧
    (request (fun _ => .ok (.vStr "r")) 10 st9 "/e" (some "POST") []).2.1.requestCount
      = rlResetCount 10 st9
        + (((request (fun _ => .ok (.vStr "r")) 10 st9 "/e" (some "POST") []).2.2.attempts : Nat) : Int) :=
  request_consumes_per_attempt (fun _ => .ok (.vStr "r")) 10 st9 "/e" (some "POST") []
    (by decide)

/-! ## Metrics lemmas (C8) -/

theorem recordPerformance_counts (d now : Int) (m : MetricsState) :
    (recordPerformance d now m).total = m.total ∧
    (recordPerformance d now m).successful = m.successful ∧
    (recordPerformance d now m).failed = m.failed := by
  simp only [recordPerformance]
  split_ifs <;> exact ⟨rfl, rfl, rfl⟩

theorem recordSuccess_counts (ctx : RequestContext) (now : Int) (m : MetricsState) :
    (recordSuccess ctx now m).total = m.total + 1 ∧
    (recordSuccess ctx now m).successful = m.successful + 1 ∧
    (recordSuccess ctx now m).failed = m.failed := by
  unfold recordSuccess
  refine ⟨?_, ?_, ?_⟩
  · rw [(recordPerformance_counts _ _ _).1]
  · rw [(recordPerformance_counts _ _ _).2.1]
  · rw [(recordPerformance_counts _ _ _).2.2]

theorem recordFailure_counts (ctx : RequestContext) (e : JsError) (now : Int)
    (m : MetricsState) :
    (recordFailure ctx e now m).total = m.total + 1 ∧
    (recordFailure ctx e now m).successful = m.successful ∧
    (recordFailure ctx e now m).failed = m.failed + 1 := by
  unfold recordFailure recordError
  exact ⟨rfl, rfl, rfl⟩

theorem countP_isSucc_add (evs : List MEvent) :
    evs.length = evs.countP (fun e => e.isSucc) + evs.countP (fun e => !e.isSucc) := by
  induction evs with
  | nil => rfl
  | cons e r ih =>
    simp only [List.length_cons, List.countP_cons, ih]
    cases he : e.isSucc <;> simp [he] <;> omega

theorem applyEvents_counts (evs : List MEvent) :
    ∀ m : MetricsState,
      (applyEvents m evs).total = m.total + evs.length ∧
      (applyEvents m evs).successful = m.successful + evs.countP (fun e => e.isSucc) ∧
      (applyEvents m evs).failed = m.failed + evs.countP (fun e => !e.isSucc) := by
  induction evs with
  | nil => intro m; simp [applyEvents]
  | cons ev rest ih =>
    intro m
    have h := ih (applyEvent m ev)
    simp only [applyEvents, List.foldl_cons] at h ⊢
    cases ev with
    | succ api tool rid s f =>
      have hs := recordSuccess_counts (startRequest api tool s rid) f m
      simp only [applyEvent] at h ⊢
      rw [h.1, h.2.1, h.2.2, hs.1, hs.2.1, hs.2.2]
      simp [List.countP_cons, MEvent.isSucc]
      omega
    | fail api tool rid s f e =>
      have hs := recordFailure_counts (startRequest api tool s rid) e f m
      simp only [applyEvent] at h ⊢
      rw [h.1, h.2.1, h.2.2, hs.1, hs.2.1, hs.2.2]
      simp [List.countP_cons, MEvent.isSucc]
      omega

/-- C8: after N recorded successes and M recorded failures, in any
interleaving, `getReport` yields `totalRequests = N + M` and a success rate of
`N/(N+M)` (as a percentage), with the defined value `0` when `N + M = 0`.
`getReport` is read-only by construction: the embedding is a function of the
state, mirroring the source, which only reads `this.metrics` and builds a
fresh object. -/
theorem metrics_report_totals (evs : List MEvent) (now0 now : Int) :
    (getReport now (applyEvents (freshMetrics now0) evs)).totalRequests
      = evs.countP (fun e => e.isSucc) + evs.countP (fun e => !e.isSucc) ∧
    (0 < evs.length →
      (getReport now (applyEvents (freshMetrics now0) evs)).successRatePct
        = ((evs.countP (fun e => e.isSucc) : ℚ) /
            ((evs.countP (fun e => e.isSucc) + evs.countP (fun e => !e.isSucc) : Nat) : ℚ)) * 100) ∧
    (evs.length = 0 →
      (getReport now (applyEvents (freshMetrics now0) evs)).successRatePct = 0) := by
  have hc := applyEvents_counts evs (freshMetrics now0)
  have hT : (applyEvents (freshMetrics now0) evs).total = evs.length := by
    simpa [freshMetrics] using hc.1
  have hS : (applyEvents (freshMetrics now0) evs).successful
      = evs.countP (fun e => e.isSucc) := by
    simpa [freshMetrics] using hc.2.1
  have hlen : evs.length = evs.countP (fun e => e.isSucc) + evs.countP (fun e => !e.isSucc) :=
    countP_isSucc_add evs
  refine ⟨?_, ?_, ?_⟩
  · simp only [getReport, hT]
    omega
  · intro hpos
    have htot : 0 < (applyEvents (freshMetrics now0) evs).total := by omega
    simp only [getReport, if_pos htot]
    rw [hT, hS, hlen]
  · intro hz
    have htot : ¬ 0 < (applyEvents (freshMetrics now0) evs).total := by omega
    simp only [getReport, if_neg htot]

/-- Events for the C8 witness: one success, one failure. -/
def ev1 : MEvent := .succ "github" "github-get-user" "r1" 0 50

/-- Events for the C8 witness: the failure. -/
def ev2 : MEvent := .fail "github" "github-get-user" "r2" 0 70 (mkError "boom")

/-- Witness for C8: one success and one failure give two total requests and a
50 percent success rate. -/
theorem metrics_report_totals_witness :
    (getReport 100 (applyEvents (freshMetrics 0) [ev1, ev2])).totalRequests = 2 ∧
    (getReport 100 (applyEvents (freshMetrics 0) [ev1, ev2])).successRatePct = 50 := by
  have h := metrics_report_totals [ev1, ev2] 0 100
  refine ⟨?_, ?_⟩
  · rw [h.1]
    decide
  · rw [h.2.1 (by decide)]
    norm_num [ev1, ev2, List.countP_cons, MEvent.isSucc]

/-! ## Key-synchronisation lemmas (C10, C6) -/

theorem keysWF_delete_both (cc : List (String × CacheEntry)) (att : List (String × Int))
    (k : String) (h : KeysWF cc att) : KeysWF (mapDelete cc k) (mapDelete att k) := by
  rcases h with ⟨h1, h2, h3, h4⟩
  rw [keysSubB_iff] at h3 h4
  refine ⟨?_, ?_, ?_, ?_⟩
  · rw [keysOf_mapDelete]; exact h1.filter _
  · rw [keysOf_mapDelete]; exact h2.filter _
  · rw [keysSubB_iff]
    intro a ha
    rw [mem_keysOf_mapDelete] at ha ⊢
    exact ⟨h3 a ha.1, ha.2⟩
  · rw [keysSubB_iff]
    intro a ha
    rw [mem_keysOf_mapDelete] at ha ⊢
    exact ⟨h4 a ha.1, ha.2⟩

theorem keysWF_set_both (cc : List (String × CacheEntry)) (att : List (String × Int))
    (k : String) (e : CacheEntry) (t : Int) (h : KeysWF cc att) :
    KeysWF (mapSet cc k e) (mapSet att k t) := by
  rcases h with ⟨h1, h2, h3, h4⟩
  rw [keysSubB_iff] at h3 h4
  by_cases hm : k ∈ keysOf cc
  · have hm2 : k ∈ keysOf att := h3 k hm
    unfold KeysWF
    rw [keysOf_mapSet_mem _ _ _ hm, keysOf_mapSet_mem _ _ _ hm2]
    exact ⟨h1, h2, (keysSubB_iff _ _).mpr h3, (keysSubB_iff _ _).mpr h4⟩
  · have hm2 : k ∉ keysOf att := fun hx => hm (h4 k hx)
    unfold KeysWF
    rw [keysOf_mapSet_not_mem _ _ _ hm, keysOf_mapSet_not_mem _ _ _ hm2]
    refine ⟨?_, ?_, ?_, ?_⟩
    · rw [List.nodup_append]
      refine ⟨h1, List.nodup_singleton _, ?_⟩
      intro a ha hb
      rw [List.mem_singleton] at hb
      subst hb
      exact hm ha
    · rw [List.nodup_append]
      refine ⟨h2, List.nodup_singleton _, ?_⟩
      intro a ha hb
      rw [List.mem_singleton] at hb
      subst hb
      exact hm2 ha
    · rw [keysSubB_iff]
      intro a ha
      rw [List.mem_append] at ha ⊢
      rcases ha with ha | ha
      · exact Or.inl (h3 a ha)
      · exact Or.inr ha
    · rw [keysSubB_iff]
      intro a ha
      rw [List.mem_append] at ha ⊢
      rcases ha with ha | ha
      · exact Or.inl (h4 a ha)
      · exact Or.inr ha

theorem keysWF_set_access (cc : List (String × CacheEntry)) (att : List (String × Int))
    (k : String) (t : Int) (h : KeysWF cc att) (hm : k ∈ keysOf att) :
    KeysWF cc (mapSet att k t) := by
  unfold KeysWF at h ⊢
  rw [keysOf_mapSet_mem _ _ _ hm]
  exact h

theorem cacheWF_get (c : AdvancedCache) (now : Int) (k : String) (h : CacheWF c) :
    CacheWF (c.get now k).2 := by
  simp only [AdvancedCache.get]
  split
  · exact h
  · next item heq =>
    split
    · exact keysWF_delete_both _ _ _ h
    · have hk : k ∈ keysOf c.cache := by
        rw [← mapGet_isSome_iff c.cache k]
        rw [heq]
        rfl
      have hk2 : k ∈ keysOf c.accessTimes := (keysSubB_iff _ _).mp h.2.2.1 k hk
      exact keysWF_set_access _ _ _ _ h hk2

theorem cacheWF_evictLRU (c : AdvancedCache) (h : CacheWF c) : CacheWF c.evictLRU := by
  simp only [AdvancedCache.evictLRU]
  split
  · exact h
  · split
    · exact h
    · exact keysWF_delete_both _ _ _ h

theorem cacheWF_set (c : AdvancedCache) (now : Int) (k : String) (v : Value)
    (ttl : Option Int) (h : CacheWF c) : CacheWF (c.set now k v ttl) := by
  simp only [AdvancedCache.set]
  split_ifs with hc1
  · exact keysWF_set_both _ _ _ _ _ (cacheWF_evictLRU c h)
  · exact keysWF_set_both _ _ _ _ _ h

theorem cleanup_fold_wf (now : Int) (l : List (String × CacheEntry)) :
    ∀ acc : Nat × AdvancedCache, CacheWF acc.2 →
      CacheWF (l.foldl (fun acc kv =>
        if now > kv.2.expiresAt then
          (acc.1 + 1, { acc.2 with cache := mapDelete acc.2.cache kv.1,
                                   accessTimes := mapDelete acc.2.accessTimes kv.1 })
        else acc) acc).2 := by
  induction l with
  | nil => intro acc h; exact h
  | cons kv rest ih =>
    intro acc h
    rw [List.foldl_cons]
    apply ih
    split_ifs with hx
    · exact keysWF_delete_both _ _ _ h
    · exact h

theorem cacheWF_cleanup (c : AdvancedCache) (now : Int) (h : CacheWF c) :
    CacheWF (c.cleanup now).2 := by
  simp only [AdvancedCache.cleanup]
  exact cleanup_fold_wf now c.cache (0, c) h

theorem cacheWF_clear (c : AdvancedCache) : CacheWF c.clear := by
  unfold AdvancedCache.clear CacheWF KeysWF
  exact ⟨List.nodup_nil, List.nodup_nil, rfl, rfl⟩

theorem cacheWF_deleteKey (c : AdvancedCache) (k : String) (h : CacheWF c) :
    CacheWF (c.delete k).2 :=
  keysWF_delete_both _ _ _ h

theorem cacheWF_has (c : AdvancedCache) (now : Int) (k : String) (h : CacheWF c) :
    CacheWF (c.has now k).2 := by
  simp only [AdvancedCache.has]
  split
  · exact h
  · split
    · exact keysWF_delete_both _ _ _ h
    · exact h

/-- C10: every cache operation (`get`, `set`, `delete`, `cleanup`, `clear`,
`evictLRU`, `has`) preserves the invariant that the entry map and the
last-access-time map are well-formed JS `Map`s containing exactly the same
set of keys. -/
theorem cache_ops_preserve_key_sync (c : AdvancedCache) (now : Int) (k : String)
    (v : Value) (ttl : Option Int) (h : CacheWF c) :
    CacheWF (c.get now k).2 ∧ CacheWF (c.set now k v ttl) ∧
    CacheWF (c.delete k).2 ∧ CacheWF (c.cleanup now).2 ∧
    CacheWF c.clear ∧ CacheWF c.evictLRU ∧ CacheWF (c.has now k).2 :=
  ⟨cacheWF_get c now k h, cacheWF_set c now k v ttl h, cacheWF_deleteKey c k h,
   cacheWF_cleanup c now h, cacheWF_clear c, cacheWF_evictLRU c h,
   cacheWF_has c now k h⟩

/-- A concrete well-formed one-entry cache for the C10 witness. -/
def cw : AdvancedCache :=
  { mkCache none none with
    cache := [("a", ⟨.vStr "x", 1000, 0⟩)], accessTimes := [("a", 0)] }

/-- Witness for C10 on a concrete one-entry cache. -/
theorem cache_ops_preserve_key_sync_witness :
    CacheWF (cw.get 10 "a").2 ∧ CacheWF (cw.set 10 "a" (.vStr "y") none) ∧
    CacheWF (cw.delete "a").2 ∧ CacheWF (cw.cleanup 10).2 ∧
    CacheWF cw.clear ∧ CacheWF cw.evictLRU ∧ CacheWF (cw.has 10 "a").2 :=
  cache_ops_preserve_key_sync cw 10 "a" (.vStr "y") none
    (by unfold CacheWF KeysWF cw; decide)

/-! ## LRU capacity lemmas (C6) -/

theorem mapDelete_not_mem (m : List (String × α)) (k : String)
    (h : k ∉ keysOf m) : mapDelete m k = m := by
  rw [mapDelete, List.filter_eq_self]
  intro kv hkv
  have : kv.1 ≠ k := fun e => h (e ▸ List.mem_map_of_mem Prod.fst hkv)
  simp [this]

theorem mapDelete_length (m : List (String × α)) (k : String)
    (hnd : (keysOf m).Nodup) (hmem : k ∈ keysOf m) :
    (mapDelete m k).length = m.length - 1 := by
  have h1 : (mapDelete m k).length = (keysOf (mapDelete m k)).length := by
    rw [keysOf, List.length_map]
  rw [h1, keysOf_mapDelete]
  have h2 : (keysOf m).filter (fun a => !(a == k)) = (keysOf m).erase k := by
    rw [List.Nodup.erase_eq_filter hnd]
    apply List.filter_congr
    intro x _
    simp [bne]
  rw [h2, List.length_erase_of_mem hmem, keysOf, List.length_map]

theorem mapGet_update_ne (m : List (String × α)) (k k2 : String) (v : α)
    (h : k2 ≠ k) :
    mapGet (m.map fun kv => if kv.1 = k then (k, v) else kv) k2 = mapGet m k2 := by
  induction m with
  | nil => rfl
  | cons kv rest ih =>
    by_cases hk : kv.1 = k
    · have h1 : ¬ (k = k2) := fun e => h e.symm
      have h2 : ¬ (kv.1 = k2) := by rw [hk]; exact h1
      simp [mapGet, hk, h1, h2, ih]
    · simp only [List.map_cons, if_neg hk]
      by_cases hk2 : kv.1 = k2
      · simp [mapGet, hk2]
      · simp [mapGet, hk2, ih]

theorem mapGet_append_ne (m : List (String × α)) (k k2 : String) (v : α)
    (h : k2 ≠ k) :
    mapGet (m ++ [(k, v)]) k2 = mapGet m k2 := by
  induction m with
  | nil =>
    have h1 : ¬ (k = k2) := fun e => h e.symm
    simp [mapGet, h1]
  | cons kv rest ih =>
    by_cases hk2 : kv.1 = k2
    · simp [mapGet, hk2]
    · simp [mapGet, hk2, ih]

theorem mapGet_mapSet_ne (m : List (String × α)) (k k2 : String) (v : α)
    (h : k2 ≠ k) : mapGet (mapSet m k v) k2 = mapGet m k2 := by
  rw [mapSet]
  split_ifs with hm
  · exact mapGet_update_ne m k k2 v h
  · exact mapGet_append_ne m k k2 v h

theorem accessFold_min_some (l : List (String × Int)) :
    ∀ p : String × Int,
      ∃ q, (l.foldl (fun acc kv =>
          match acc with
          | none => some kv
          | some best => if kv.2 < best.2 then some kv else acc) (some p)) = some q ∧
        (q ∈ l ∨ q = p) ∧ q.2 ≤ p.2 ∧ ∀ x ∈ l, q.2 ≤ x.2 := by
  induction l with
  | nil => intro p; exact ⟨p, rfl, Or.inr rfl, le_refl _, by simp⟩
  | cons kv rest ih =>
    intro p
    rw [List.foldl_cons]
    by_cases hlt : kv.2 < p.2
    · obtain ⟨q, hfold, hmem, hle, hall⟩ := ih kv
      refine ⟨q, ?_, ?_, ?_, ?_⟩
      · rw [← hfold]
        congr 1
        simp [hlt]
      · rcases hmem with hm | hm
        · exact Or.inl (List.mem_cons_of_mem _ hm)
        · exact Or.inl (hm ▸ List.mem_cons_self _ _)
      · exact le_trans hle (le_of_lt hlt)
      · intro x hx
        rcases List.mem_cons.mp hx with hx | hx
        · exact hx ▸ hle
        · exact hall x hx
    · obtain ⟨q, hfold, hmem, hle, hall⟩ := ih p
      refine ⟨q, ?_, ?_, ?_, ?_⟩
      · rw [← hfold]
        congr 1
        simp [hlt]
      · rcases hmem with hm | hm
        · exact Or.inl (List.mem_cons_of_mem _ hm)
        · exact Or.inr hm
      · exact hle
      · intro x hx
        rcases List.mem_cons.mp hx with hx | hx
        · subst hx
          omega
        · exact hall x hx

theorem accessFold_min (l : List (String × Int)) (hne : l ≠ []) :
    ∃ q, (l.foldl (fun acc kv =>
        match acc with
        | none => some kv
        | some best => if kv.2 < best.2 then some kv else acc) none) = some q ∧
      q ∈ l ∧ ∀ p ∈ l, q.2 ≤ p.2 := by
  obtain ⟨x, xs, rfl⟩ := List.exists_cons_of_ne_nil hne
  rw [List.foldl_cons]
  obtain ⟨q, hfold, hmem, hle, hall⟩ := accessFold_min_some xs x
  refine ⟨q, hfold, ?_, ?_⟩
  · rcases hmem with hm | hm
    · exact List.mem_cons_of_mem _ hm
    · exact hm ▸ List.mem_cons_self _ _
  · intro p hp
    rcases List.mem_cons.mp hp with hp | hp
    · exact hp ▸ hle
    · exact hall p hp

theorem evictLRU_removes_min (c : AdvancedCache)
    (hne : c.accessTimes ≠ []) (hall : ∀ x ∈ keysOf c.accessTimes, x ≠ "") :
    ∃ q, q ∈ c.accessTimes ∧ (∀ p ∈ c.accessTimes, q.2 ≤ p.2) ∧
      c.evictLRU = { c with cache := mapDelete c.cache q.1,
                            accessTimes := mapDelete c.accessTimes q.1,
                            evictions := c.evictions + 1 } := by
  obtain ⟨q, hfold, hmem, hmin⟩ := accessFold_min c.accessTimes hne
  refine ⟨q, hmem, hmin, ?_⟩
  have hq : q.1 ≠ "" := hall q.1 (List.mem_map_of_mem Prod.fst hmem)
  rw [AdvancedCache.evictLRU]
  rw [hfold]
  simp [hq]

theorem keysWF_length_eq (c : AdvancedCache) (hwf : CacheWF c) :
    c.cache.length = c.accessTimes.length := by
  rcases hwf with ⟨h1, h2, h3, h4⟩
  rw [keysSubB_iff] at h3 h4
  have hperm : (keysOf c.cache).Perm (keysOf c.accessTimes) :=
    (List.perm_ext_iff_of_nodup h1 h2).mpr (fun a => ⟨h3 a, h4 a⟩)
  have := hperm.length_eq
  rwa [keysOf, keysOf, List.length_map, List.length_map] at this

theorem set_fresh_room (c : AdvancedCache) (now : Int) (k : String) (v : Value)
    (ttl : Option Int) (hwf : CacheWF c) (hfresh : k ∉ keysOf c.cache)
    (hroom : (c.cache.length : Int) < c.maxSize) :
    (c.set now k v ttl).cache.length = c.cache.length + 1 ∧
    (c.set now k v ttl).evictions = c.evictions ∧
    keysOf (c.set now k v ttl).cache = keysOf c.cache ++ [k] ∧
    keysOf (c.set now k v ttl).accessTimes = keysOf c.accessTimes ++ [k] ∧
    (c.set now k v ttl).maxSize = c.maxSize := by
  have hcond : ¬ ((c.cache.length : Int) ≥ c.maxSize ∧ ¬ hasKey c.cache k = true) :=
    fun hx => by omega
  have hfa : k ∉ keysOf c.accessTimes :=
    fun hx => hfresh ((keysSubB_iff _ _).mp hwf.2.2.2 k hx)
  simp only [AdvancedCache.set, if_neg hcond]
  refine ⟨?_, by trivial, ?_, ?_, by trivial⟩
  · rw [mapSet, if_neg (fun hc => hfresh ((hasKey_iff _ _).mp hc))]
    simp
  · exact keysOf_mapSet_not_mem _ _ _ hfresh
  · exact keysOf_mapSet_not_mem _ _ _ hfa

theorem set_present_size (c : AdvancedCache) (now : Int) (k : String) (v : Value)
    (ttl : Option Int) (hmem : k ∈ keysOf c.cache) :
    (c.set now k v ttl).cache.length = c.cache.length ∧
    (c.set now k v ttl).evictions = c.evictions := by
  have hcond : ¬ ((c.cache.length : Int) ≥ c.maxSize ∧ ¬ hasKey c.cache k = true) :=
    fun hx => hx.2 ((hasKey_iff _ _).mpr hmem)
  simp only [AdvancedCache.set, if_neg hcond]
  constructor
  · rw [mapSet, if_pos ((hasKey_iff _ _).mpr hmem)]
    simp
  · trivial

theorem set_fresh_full (c : AdvancedCache) (now : Int) (k : String) (v : Value)
    (ttl : Option Int) (hwf : CacheWF c) (hall : ∀ x ∈ keysOf c.accessTimes, x ≠ "")
    (hfresh : k ∉ keysOf c.cache) (hfull : (c.cache.length : Int) = c.maxSize)
    (hmax : 1 ≤ c.maxSize) :
    ((c.set now k v ttl).cache.length : Int) = c.maxSize ∧
    (c.set now k v ttl).evictions = c.evictions + 1 ∧
    ∃ q, q ∈ c.accessTimes ∧ (∀ p ∈ c.accessTimes, q.2 ≤ p.2) ∧
      mapGet (c.set now k v ttl).cache q.1 = none := by
  have hlen := keysWF_length_eq c hwf
  have hne : c.accessTimes ≠ [] := by
    intro hx
    rw [hx, List.length_nil] at hlen
    omega
  obtain ⟨q, hqmem, hqmin, hev⟩ := evictLRU_removes_min c hne hall
  have hqc : q.1 ∈ keysOf c.accessTimes := List.mem_map_of_mem Prod.fst hqmem
  have hqcc : q.1 ∈ keysOf c.cache := (keysSubB_iff _ _).mp hwf.2.2.2 q.1 hqc
  have hkq : k ≠ q.1 := fun e => hfresh (e ▸ hqcc)
  have hcond : ((c.cache.length : Int) ≥ c.maxSize ∧ ¬ hasKey c.cache k = true) :=
    ⟨by omega, fun hc => hfresh ((hasKey_iff _ _).mp hc)⟩
  have hdel_len : (mapDelete c.cache q.1).length = c.cache.length - 1 :=
    mapDelete_length c.cache q.1 hwf.1 hqcc
  have hfresh2 : k ∉ keysOf (mapDelete c.cache q.1) := by
    rw [mem_keysOf_mapDelete]
    exact fun hx => hfresh hx.1
  have hpos : 0 < c.cache.length := by omega
  refine ⟨?_, ?_, ⟨q, hqmem, hqmin, ?_⟩⟩
  · simp only [AdvancedCache.set, if_pos hcond, hev]
    rw [mapSet, if_neg (fun hc => hfresh2 ((hasKey_iff _ _).mp hc))]
    simp only [List.length_append, List.length_cons, List.length_nil]
    rw [hdel_len]
    omega
  · simp only [AdvancedCache.set, if_pos hcond, hev]
  · simp only [AdvancedCache.set, if_pos hcond, hev]
    rw [mapGet_mapSet_ne _ _ _ _ (fun e => hkq e.symm)]
    rw [mapGet_eq_none_iff, mem_keysOf_mapDelete]
    exact fun hx => hx.2 rfl

theorem insertSeq_overfill (ks : List String) :
    ∀ (c : AdvancedCache) (t : Int),
      CacheWF c → (∀ x ∈ keysOf c.accessTimes, x ≠ "") →
      ks.Nodup → (∀ x ∈ ks, x ≠ "" ∧ x ∉ keysOf c.cache) →
      1 ≤ c.maxSize → (c.cache.length : Int) ≤ c.maxSize →
      (c.cache.length : Int) + (ks.length : Int) = c.maxSize + 1 →
      ((insertSeq c ks t).cache.length : Int) = c.maxSize ∧
      (insertSeq c ks t).evictions = c.evictions + 1 := by
  induction ks with
  | nil =>
    intro c t _ _ _ _ hmax hbound hsum
    exfalso
    simp at hsum
    omega
  | cons k ks ih =>
    intro c t hwf hall hnd hfresh hmax hbound hsum
    rw [insertSeq]
    have hkfresh := hfresh k (List.mem_cons_self _ _)
    by_cases hroom : (c.cache.length : Int) < c.maxSize
    · obtain ⟨hlen1, hev1, hkeys1, hkeysa1, hms1⟩ :=
        set_fresh_room c t k (.vStr "v") none hwf hkfresh.2 hroom
      have hwf1 := cacheWF_set c t k (.vStr "v") none hwf
      have hall1 : ∀ x ∈ keysOf (c.set t k (.vStr "v") none).accessTimes, x ≠ "" := by
        intro x hx
        rw [hkeysa1, List.mem_append, List.mem_singleton] at hx
        rcases hx with hx | hx
        · exact hall x hx
        · exact hx ▸ hkfresh.1
      have hfresh1 : ∀ x ∈ ks, x ≠ "" ∧ x ∉ keysOf (c.set t k (.vStr "v") none).cache := by
        intro x hx
        refine ⟨(hfresh x (List.mem_cons_of_mem _ hx)).1, ?_⟩
        rw [hkeys1, List.mem_append, List.mem_singleton]
        rintro (hc | hc)
        · exact (hfresh x (List.mem_cons_of_mem _ hx)).2 hc
        · exact (List.nodup_cons.mp hnd).1 (hc ▸ hx)
      have hmax1 : 1 ≤ (c.set t k (.vStr "v") none).maxSize := by
        rw [hms1]; exact hmax
      have hcast : ((k :: ks).length : Int) = (ks.length : Int) + 1 := by
        simp
      have hbound1 : ((c.set t k (.vStr "v") none).cache.length : Int)
          ≤ (c.set t k (.vStr "v") none).maxSize := by
        rw [hlen1, hms1]
        rw [hcast] at hsum
        push_cast
        omega
      have hsum1 : ((c.set t k (.vStr "v") none).cache.length : Int)
          + (ks.length : Int) = (c.set t k (.vStr "v") none).maxSize + 1 := by
        rw [hlen1, hms1]
        rw [hcast] at hsum
        push_cast
        omega
      obtain ⟨hfin1, hfin2⟩ := ih (c.set t k (.vStr "v") none) (t + 1) hwf1 hall1
        (List.nodup_cons.mp hnd).2 hfresh1 hmax1 hbound1 hsum1
      rw [hms1] at hfin1
      rw [hev1] at hfin2
      exact ⟨hfin1, hfin2⟩
    · have hfull : (c.cache.length : Int) = c.maxSize := by omega
      obtain ⟨hf1, hf2, _⟩ :=
        set_fresh_full c t k (.vStr "v") none hwf hall hkfresh.2 hfull hmax
      have hksnil : ks = [] := by
        have hcast : ((k :: ks).length : Int) = (ks.length : Int) + 1 := by simp
        rw [hcast] at hsum
        have : ks.length = 0 := by omega
        exact List.length_eq_zero.mp this
      subst hksnil
      rw [insertSeq]
      exact ⟨hf1, hf2⟩

/-- C6 counterexample: a cache constructed with `maxSize = 1` holding the
key `""`; inserting a second distinct key leaves TWO entries resident and
records NO eviction, because `evictLRU`'s `if (oldestKey)` treats the
empty-string LRU key as falsy and skips the eviction. -/
theorem lru_empty_key_cex :
    (mkCache (some 1) none).maxSize = 1 ∧
    (((mkCache (some 1) none).set 0 "" (.vStr "a") none).set 1 "b"
        (.vStr "b") none).cache.length = 2 ∧
    (((mkCache (some 1) none).set 0 "" (.vStr "a") none).set 1 "b"
        (.vStr "b") none).evictions = 0 :=
  ⟨rfl, rfl, rfl⟩

/-- C6 (amended): for a well-formed cache with positive `maxSize` and no
empty-string key tracked, `set` keeps the resident count at most `maxSize`;
a `set` of a fresh key into a full cache records exactly one eviction and
removes an entry whose last-access time is minimal; a `set` into a non-full
cache (or of an already-present key) records none; and inserting `maxSize+1`
distinct nonempty keys into a fresh cache of capacity `maxSize ≥ 1` leaves
exactly `maxSize` entries resident and exactly one eviction recorded. -/
theorem lru_capacity_bound (c : AdvancedCache) (now : Int) (k : String) (v : Value)
    (ttl : Option Int) (hwf : CacheWF c) (hall : ∀ x ∈ keysOf c.accessTimes, x ≠ "")
    (hmax : 1 ≤ c.maxSize) (hbound : (c.cache.length : Int) ≤ c.maxSize) :
    ((c.set now k v ttl).cache.length : Int) ≤ c.maxSize ∧
    ((c.cache.length : Int) = c.maxSize → k ∉ keysOf c.cache →
      (c.set now k v ttl).evictions = c.evictions + 1 ∧
      ∃ q, q ∈ c.accessTimes ∧ (∀ p ∈ c.accessTimes, q.2 ≤ p.2) ∧
        mapGet (c.set now k v ttl).cache q.1 = none) ∧
    (((c.cache.length : Int) < c.maxSize ∨ k ∈ keysOf c.cache) →
      (c.set now k v ttl).evictions = c.evictions) ∧
    (∀ (m : Nat) (ks : List String) (t : Int), 1 ≤ m → ks.Nodup →
      ks.length = m + 1 → (∀ x ∈ ks, x ≠ "") →
      ((insertSeq (mkCache (some (m : Int)) none) ks t).cache.length : Int) = (m : Int) ∧
      (insertSeq (mkCache (some (m : Int)) none) ks t).evictions = 1) := by
  refine ⟨?_, ?_, ?_, ?_⟩
  · by_cases hmem : k ∈ keysOf c.cache
    · have h := set_present_size c now k v ttl hmem
      omega
    · by_cases hroom : (c.cache.length : Int) < c.maxSize
      · have h := (set_fresh_room c now k v ttl hwf hmem hroom).1
        omega
      · have hfull : (c.cache.length : Int) = c.maxSize := by omega
        have h := (set_fresh_full c now k v ttl hwf hall hmem hfull hmax).1
        omega
  · intro hfull hmem
    have h := set_fresh_full c now k v ttl hwf hall hmem hfull hmax
    exact ⟨h.2.1, h.2.2⟩
  · intro hcase
    by_cases hmem : k ∈ keysOf c.cache
    · exact (set_present_size c now k v ttl hmem).2
    · rcases hcase with hroom | hmem2
      · exact (set_fresh_room c now k v ttl hwf hmem hroom).2.1
      · exact absurd hmem2 hmem
  · intro m ks t hm hnd hlen hne
    have hms : (mkCache (some (m : Int)) none).maxSize = (m : Int) := by
      have : ((m : Int)) ≠ 0 := by omega
      simp [mkCache, this]
    have h := insertSeq_overfill ks (mkCache (some (m : Int)) none) t
      ⟨List.nodup_nil, List.nodup_nil, rfl, rfl⟩
      (by intro x hx; cases hx)
      hnd
      (by intro x hx; exact ⟨hne x hx, by simp [mkCache, keysOf]⟩)
      (by rw [hms]; omega)
      (by rw [hms]; simp [mkCache])
      (by rw [hms]; simp [mkCache, hlen])
    rw [hms] at h
    have hev0 : (mkCache (some (m : Int)) none).evictions = 0 := rfl
    rw [hev0] at h
    exact h

/-- A full well-formed one-entry cache of capacity 1 for the C6 witness. -/
def cw6 : AdvancedCache :=
  { mkCache (some 1) none with
    cache := [("a", ⟨.vStr "x", 1000, 0⟩)], accessTimes := [("a", 0)] }

/-- Witness for C6: inserting a fresh key into the full `cw6` keeps one entry
and records one eviction; inserting 3 distinct keys into a fresh capacity-2
cache leaves 2 entries and one eviction. -/
theorem lru_capacity_bound_witness :
    ((cw6.set 10 "b" (.vStr "y") none).cache.length : Int) ≤ cw6.maxSize ∧
    (cw6.set 10 "b" (.vStr "y") none).evictions = cw6.evictions + 1 ∧
    ((insertSeq (mkCache (some ((2 : Nat) : Int)) none) ["x", "y", "z"] 0).cache.length : Int)
      = ((2 : Nat) : Int) ∧
    (insertSeq (mkCache (some ((2 : Nat) : Int)) none) ["x", "y", "z"] 0).evictions = 1 := by
  have h := lru_capacity_bound cw6 10 "b" (.vStr "y") none
    (by unfold CacheWF KeysWF; decide) (by decide) (by decide) (by decide)
  exact ⟨h.1, (h.2.1 (by decide) (by decide)).1,
    (h.2.2.2 2 ["x", "y", "z"] 0 (by decide) (by decide) (by decide) (by decide)).1,
    (h.2.2.2 2 ["x", "y", "z"] 0 (by decide) (by decide) (by decide) (by decide)).2⟩

/-! ## Read pipeline fast path (C1) -/

/-- A cache holding a falsy JSON value (`false`) under the key of a read call. -/
def cFalsy : AdvancedCache :=
  { mkCache none none with
    cache := [("x:/e:method=GET", ⟨.vBool false, 1000000, 0⟩)],
    accessTimes := [("x:/e:method=GET", 0)] }

/-- A client whose cache holds the falsy value. -/
def stFalsy : HttpClientState :=
  { apiName := "x", retries := 3, rlRequests := 10, rlWindow := 60000,
    requestCount := 0, resetTime := 100, cache := cFalsy }

/-- C1 counterexample: the cache lookup finds the stored (unexpired) value
`false`, yet the pipeline — whose source tests `if (cachedResponse)` — does
NOT return it: the rate limiter runs and the transport performs an attempt,
returning the freshly fetched value instead. -/
theorem request_falsy_hit_cex :
    (stFalsy.cache.get 5 (reqKey "x" "/e" none [])).1 = some (.vBool false) ∧
    (request (fun _ => .ok (.vStr "fresh")) 5 stFalsy "/e" none []).2.2.rlChecks = 1 ∧
    (request (fun _ => .ok (.vStr "fresh")) 5 stFalsy "/e" none []).2.2.attempts = 1 ∧
    (request (fun _ => .ok (.vStr "fresh")) 5 stFalsy "/e" none []).1
      = .success (.vStr "fresh") :=
  ⟨rfl, rfl, rfl, rfl⟩

theorem read_hit_aux (fetch : Nat → FetchOutcome) (now : Int) (st : HttpClientState)
    (endpoint : String) (method : Option String) (params : List (String × String))
    (v : Value) (c' : AdvancedCache)
    (hread : isReadMethod method = true)
    (hget : st.cache.get now (reqKey st.apiName endpoint method params) = (some v, c'))
    (htr : v.truthy = true) :
    request fetch now st endpoint method params
      = (.success v, { st with cache := c' }, ⟨true, true, 0, 0, []⟩) := by
  simp [request, hread, hget, htr]

/-- The cold client of the C1 two-call scenario, window reset at `t1`. -/
def coldClient (t1 : Int) : HttpClientState :=
  { apiName := "x", retries := 3, rlRequests := 10, rlWindow := 60000,
    requestCount := 0, resetTime := t1, cache := mkCache none none }

/-- The cache key of the scenario call. -/
def coldKey : String := reqKey "x" "/users/a" none []

/-- The client after the first scenario call: one miss counted, the fetched
value stored under `coldKey` with the user-profile TTL of 600000 ms, one
window unit consumed. -/
def warmClient (t1 : Int) (v : Value) : HttpClientState :=
  { apiName := "x", retries := 3, rlRequests := 10, rlWindow := 60000,
    requestCount := 1, resetTime := t1,
    cache := { mkCache none none with
      totalRequests := 1, misses := 1, sets := 1,
      cache := [(coldKey, ⟨v, t1 + 600000, t1⟩)],
      accessTimes := [(coldKey, t1)] } }

theorem cold_scenario_aux (fetch1 fetch2 : Nat → FetchOutcome) (t1 t2 : Int) (v : Value)
    (hf1 : fetch1 0 = .ok v) (htr : v.truthy = true) (ht2 : t2 ≤ t1 + 600000) :
    request fetch1 t1 (coldClient t1) "/users/a" none []
      = (.success v, warmClient t1 v, ⟨true, false, 1, 1, []⟩) ∧
    (request fetch2 t2 (warmClient t1 v) "/users/a" none []).1 = .success v ∧
    (request fetch2 t2 (warmClient t1 v) "/users/a" none []).2.2
      = ⟨true, true, 0, 0, []⟩ := by
  have hnotexp : ¬ t2 > t1 + 600000 := by omega
  have httl : getCacheTTL (300000 : Int) "/users/a" = 600000 := rfl
  refine ⟨?_, ?_, ?_⟩
  · simp [request, isReadMethod, coldClient, AdvancedCache.get, mapGet, mkCache, afterCache,
      checkRateLimit, lt_irrefl, runTransport, attemptLoop, hf1, AdvancedCache.set,
      hasKey, AdvancedCache.evictLRU, mapSet, httl, warmClient, coldKey]
  · simp [request, isReadMethod, warmClient, mkCache, AdvancedCache.get, mapGet, coldKey,
      hnotexp, htr]
  · simp [request, isReadMethod, warmClient, mkCache, AdvancedCache.get, mapGet, coldKey,
      hnotexp, htr]

/-- C1 (amended): a read call (method omitted or GET) whose cache lookup finds
a stored TRUTHY value returns that value immediately — the rate limiter and
the transport are not invoked and the client state changes only by the
cache-hit bookkeeping. (For a falsy stored value the source's
`if (cachedResponse)` treats the hit as a miss — see the counterexample.)
In the cold-cache scenario, two sequential identical read calls of
`(api = x, endpoint = /users/a)` with no intervening mutation and a truthy
fetched value perform one fetch+store on the first call, and the second call
is a cache hit returning the identical value with no new fetch. -/
theorem read_cache_hit_fast_path :
    (∀ (fetch : Nat → FetchOutcome) (now : Int) (st : HttpClientState)
       (endpoint : String) (method : Option String) (params : List (String × String))
       (v : Value) (c' : AdvancedCache),
      isReadMethod method = true →
      st.cache.get now (reqKey st.apiName endpoint method params) = (some v, c') →
      v.truthy = true →
      request fetch now st endpoint method params
        = (.success v, { st with cache := c' }, ⟨true, true, 0, 0, []⟩)) ∧
    (∀ (fetch1 fetch2 : Nat → FetchOutcome) (t1 t2 : Int) (v : Value),
      fetch1 0 = .ok v → v.truthy = true → t2 ≤ t1 + 600000 →
      request fetch1 t1 (coldClient t1) "/users/a" none []
        = (.success v, warmClient t1 v, ⟨true, false, 1, 1, []⟩) ∧
      (request fetch2 t2 (warmClient t1 v) "/users/a" none []).1 = .success v ∧
      (request fetch2 t2 (warmClient t1 v) "/users/a" none []).2.2
        = ⟨true, true, 0, 0, []⟩) :=
  ⟨fun fetch now st endpoint method params v c' hread hget htr =>
      read_hit_aux fetch now st endpoint method params v c' hread hget htr,
   fun fetch1 fetch2 t1 t2 v hf1 htr ht2 =>
      cold_scenario_aux fetch1 fetch2 t1 t2 v hf1 htr ht2⟩

/-- Witness for C1: a concrete cold-cache double call, where the second
dependency always fails — yet the second call still succeeds from the cache
with no fetch attempt. -/
theorem read_cache_hit_fast_path_witness :
    request (fun _ => .ok (.vObj [])) 0 (coldClient 0) "/users/a" none []
      = (.success (.vObj []), warmClient 0 (.vObj []), ⟨true, false, 1, 1, []⟩) ∧
    (request (fun _ => .err (mkError "down")) 100 (warmClient 0 (.vObj []))
        "/users/a" none []).1 = .success (.vObj []) ∧
    (request (fun _ => .err (mkError "down")) 100 (warmClient 0 (.vObj []))
        "/users/a" none []).2.2 = ⟨true, true, 0, 0, []⟩ :=
  read_cache_hit_fast_path.2 (fun _ => .ok (.vObj [])) (fun _ => .err (mkError "down"))
    0 100 (.vObj []) rfl rfl (by omega)
